import Mathlib

/-!
Verification development for the site-monitor program (`monitor.py`).

The program periodically fetches a set of URLs, searches their content for
configured search terms, and sends a push notification the first time each
(url, term) pair is discovered.  The mutable per-run state consists of two
nested dictionaries, `found_items : url -> term -> Option timestamp` and
`notification_sent : url -> term -> Bool`, mutated by `check_for_patterns`
(the guarded commit of a discovery) and by `run_check` (the guarded
notification dispatch with revert-on-failure).

The shallow embedding below models text as `List Char`, timestamps as `Nat`,
and the external collaborators (HTML parsing / content collection, the
product-detail extractor, the network fetch, and the notification transport)
as function parameters, exactly at the interface the source uses them.
All embedded functions are translated line by line from the source.
-/

/-- Text is modelled as a list of characters (Python `str`). -/
abbrev Str := List Char

/-- The mutable discovery state of `SiteMonitor`:
`found_items` (url -> term -> optional found-timestamp, `None` initially) and
`notification_sent` (url -> term -> flag, `False` initially).
Python dict lookups with `.get` default to `None`/absent, so total functions
are a faithful model. -/
structure MonitorState where
  found_items : Str → Str → Option Nat
  notification_sent : Str → Str → Bool

/-- The state built by `SiteMonitor.__init__`: every pair unset. -/
def initState : MonitorState :=
  { found_items := fun _ _ => none, notification_sent := fun _ _ => false }

/-- Pointwise update of the `found_items` map at one (url, term) key. -/
def updFound (url t : Str) (v : Option Nat) (f : Str → Str → Option Nat) :
    Str → Str → Option Nat :=
  fun u t' => if u = url ∧ t' = t then v else f u t'

/-- Pointwise update of the `notification_sent` map at one (url, term) key. -/
def updFlag (url t : Str) (b : Bool) (f : Str → Str → Bool) :
    Str → Str → Bool :=
  fun u t' => if u = url ∧ t' = t then b else f u t'

/-! ## Text normalizer (`_normalize_text`, monitor.py lines 129-145) -/

/-- `SiteMonitor.TEXT_LIMIT`: the truncation bound applied before normalizing. -/
def TEXT_LIMIT : Nat := 100000

/-- Membership in the character class `[a-z0-9]` (after lowercasing). -/
def isAlnumLower (c : Char) : Bool :=
  (decide ('a' ≤ c) && decide (c ≤ 'z')) || (decide ('0' ≤ c) && decide (c ≤ '9'))

/-- Membership in the regex whitespace class `\s` (ASCII part). -/
def isPySpace (c : Char) : Bool :=
  c == ' ' || c == '\t' || c == '\n' || c == '\r' || c == '\x0b' || c == '\x0c'

/-- Character action of `re.sub(r'[^a-z0-9\s]', ' ', text)`: characters outside
`[a-z0-9]` and outside the whitespace class become a space. -/
def substNonAlnumKeepWS (c : Char) : Char :=
  if isAlnumLower c || isPySpace c then c else ' '

/-- Effect of `re.sub(r'\s+', ' ', s)`: every maximal run of whitespace
characters is replaced by a single space. -/
def collapseWS : Str → Str
  | [] => []
  | [c] => if isPySpace c then [' '] else [c]
  | c :: c' :: cs =>
    if isPySpace c && isPySpace c' then collapseWS (c' :: cs)
    else (if isPySpace c then ' ' else c) :: collapseWS (c' :: cs)

/-- Effect of Python `str.strip()`: drop whitespace from both ends. -/
def stripWS (s : Str) : Str :=
  ((s.dropWhile isPySpace).reverse.dropWhile isPySpace).reverse

/-- `SiteMonitor._normalize_text`: guard the falsy input, truncate to
`TEXT_LIMIT`, lowercase, replace characters outside `[a-z0-9\s]` with spaces,
collapse whitespace runs and strip the ends. -/
def normalize_text (text : Str) : Str :=
  if text = [] then []
  else stripWS (collapseWS (((text.take TEXT_LIMIT).map Char.toLower).map substNonAlnumKeepWS))

/-- Character action named by the specification: replace every character
outside `[a-z0-9]` (whitespace included) with a space. -/
def substNonAlnumRef (c : Char) : Char :=
  if isAlnumLower c then c else ' '

/-- Reference normalizer, written from the specification text: truncate to the
fixed maximum length, lowercase, replace every character outside `[a-z0-9]`
with a space, collapse consecutive whitespace to single spaces, trim ends. -/
def normalizeRef (text : Str) : Str :=
  stripWS (collapseWS (((text.take TEXT_LIMIT).map Char.toLower).map substNonAlnumRef))

/-- Example text of the specification: the characters of `DJI Mini-5 Pro!`. -/
def exDJIRaw : Str :=
  ['D', 'J', 'I', ' ', 'M', 'i', 'n', 'i', '-', '5', ' ', 'P', 'r', 'o', '!']

/-- Example text of the specification: the characters of `dji mini 5 pro`. -/
def exDJIPlain : Str :=
  ['d', 'j', 'i', ' ', 'm', 'i', 'n', 'i', ' ', '5', ' ', 'p', 'r', 'o']

/-! ## Pattern check (`check_for_patterns`, monitor.py lines 380-424) -/

/-- Joining of the collected searchable content,
`' '.join(str(content) for content in searchable_content if content)`:
falsy (empty) pieces are dropped, the rest joined with single spaces. -/
def joinContent (pieces : List Str) : Str :=
  List.intercalate [' '] (pieces.filter (fun p => !p.isEmpty))

/-- Python substring containment `needle in hay` on our character lists. -/
def strContains (hay needle : Str) : Bool :=
  match hay with
  | [] => needle.isEmpty
  | c :: t => needle.isPrefixOf (c :: t) || strContains t needle

/-- The guarded commit of a discovery (monitor.py lines 413-416): inside the
lock, `if not self.found_items[url].get(search_text)` re-checks that the pair
is still unset, and only then writes the timestamp.  Returns whether the
transition happened together with the new state. -/
def commitFound (url t : Str) (now : Nat) (s : MonitorState) : Bool × MonitorState :=
  if s.found_items url t = none then
    (true, { s with found_items := updFound url t (some now) s.found_items })
  else
    (false, s)

/-- The state after a successful guarded commit: the timestamp written at one
(url, term) key, everything else untouched. -/
def commitState (now : Nat) (url t : Str) (s : MonitorState) : MonitorState :=
  { s with found_items := updFound url t (some now) s.found_items }

/-- The `for search_text in search_texts_to_check` loop of `check_for_patterns`
(monitor.py lines 403-416).  Already-found terms are skipped; otherwise the
normalized term is tested for substring containment in the normalized content
and, on a match, committed under the double-check guard.  Returns the
`found_texts` list, the final state, and the list of intermediate states
observed after each successful commit. -/
def checkTermsLoop (now : Nat) (url : Str) (normalized_content : Str) :
    List Str → MonitorState → List Str × MonitorState × List MonitorState
  | [], s => ([], s, [])
  | t :: ts, s =>
    if (s.found_items url t).isSome then checkTermsLoop now url normalized_content ts s
    else if strContains normalized_content (normalize_text t) then
      match commitFound url t now s with
      | (true, s') =>
        let r := checkTermsLoop now url normalized_content ts s'
        (t :: r.1, r.2.1, s' :: r.2.2)
      | (false, s') => checkTermsLoop now url normalized_content ts s'
    else checkTermsLoop now url normalized_content ts s

/-- Result of one `check_for_patterns` call: the returned flag, the
`product_info` record list (modelled by the `search_term` field of each
record; its `found_at` field is always the checked url), the `found_texts`
list, the final state, and the intermediate states after each mutation. -/
structure CheckResult where
  found : Bool
  product_info : List Str
  found_texts : List Str
  state : MonitorState
  trace : List MonitorState

/-- `SiteMonitor.check_for_patterns` (monitor.py lines 380-424).  `collect`
models `_collect_searchable_content` over the parsed page and `extract` models
`_extract_product_details` (page content and `found_texts` in, `ProductInfo`
records out, each represented by its `search_term`).  An empty or absent page
returns `(False, None)` untouched; otherwise the collected content is joined,
normalized and scanned by `checkTermsLoop`. -/
def check_for_patterns (now : Nat) (collect : Str → List Str)
    (extract : Str → List Str → List Str) (search_texts : List Str) (url : Str)
    (html_content : Option Str) (s : MonitorState) : CheckResult :=
  match html_content with
  | none => ⟨false, [], [], s, []⟩
  | some h =>
    if h.isEmpty then ⟨false, [], [], s, []⟩
    else
      let normalized_content := normalize_text (joinContent (collect h))
      let r := checkTermsLoop now url normalized_content search_texts s
      if r.1.isEmpty then ⟨false, [], r.1, r.2.1, r.2.2⟩
      else ⟨true, extract h r.1, r.1, r.2.1, r.2.2⟩

/-- `SiteMonitor._check_single_url` (monitor.py lines 426-439): a failed or
empty fetch short-circuits to no discoveries and an unchanged state; otherwise
the pattern check runs and its `product_info` is returned only when the check
reported a find and the records are non-empty. -/
def check_single_url (now : Nat) (collect : Str → List Str)
    (extract : Str → List Str → List Str) (search_texts : List Str)
    (fetched : Option Str) (url : Str) (s : MonitorState) :
    List Str × MonitorState × List MonitorState :=
  match fetched with
  | none => ([], s, [])
  | some h =>
    if h.isEmpty then ([], s, [])
    else
      let r := check_for_patterns now collect extract search_texts url (some h) s
      if r.found && !r.product_info.isEmpty then (r.product_info, r.state, r.trace)
      else ([], r.state, r.trace)

/-- One attempted notification dispatch: the (url, term) pair and whether the
`send_pushover_notification` call reported success. -/
structure DEvent where
  url : Str
  term : Str
  ok : Bool
deriving DecidableEq

/-- The notification loop of `run_check` (monitor.py lines 464-492) over the
`product_info` records of one url.  Per record: skip if `notification_sent` is
already set; otherwise set the flag, dispatch (outcome given by the `outcomes`
oracle at the running attempt counter), and clear the flag again if the
dispatch failed.  Returns the final state, the next attempt counter, the
dispatch events, and the intermediate states after each flag mutation. -/
def processInfos (outcomes : Nat → Bool) (url : Str) :
    List Str → MonitorState → Nat →
    MonitorState × Nat × List DEvent × List MonitorState
  | [], s, k => (s, k, [], [])
  | t :: ts, s, k =>
    if s.notification_sent url t then processInfos outcomes url ts s k
    else
      let s1 : MonitorState := { s with notification_sent := updFlag url t true s.notification_sent }
      let ok := outcomes k
      let s2 : MonitorState :=
        if ok then s1 else { s1 with notification_sent := updFlag url t false s1.notification_sent }
      let r := processInfos outcomes url ts s2 (k + 1)
      (r.1, r.2.1, ⟨url, t, ok⟩ :: r.2.2.1, (if ok then [s1] else [s1, s2]) ++ r.2.2.2)

/-- The state right after `self.notification_sent[found_at][search_term] = True`. -/
def claimState (url t : Str) (s : MonitorState) : MonitorState :=
  { s with notification_sent := updFlag url t true s.notification_sent }

/-- The state right after the revert
`self.notification_sent[found_at][search_term] = False` on dispatch failure. -/
def revertState (url t : Str) (s : MonitorState) : MonitorState :=
  { s with notification_sent := updFlag url t false s.notification_sent }

/-- `SiteMonitor.run_check` (monitor.py lines 441-497), serialized in url
order (every ledger access in the source is guarded by the single lock, so any
concurrent execution is equivalent to a serialization).  For each url: fetch,
run the single-url check, then drive the notification loop over the returned
records; `any_new_found` is set when a url yields records.  Returns the flag,
final state, attempt counter, dispatch events and intermediate states. -/
def run_check (now : Nat) (collect : Str → List Str)
    (extract : Str → List Str → List Str) (outcomes : Nat → Bool)
    (search_texts : List Str) (fetch : Str → Option Str) :
    List Str → MonitorState → Nat →
    Bool × MonitorState × Nat × List DEvent × List MonitorState
  | [], s, k => (false, s, k, [], [])
  | url :: rest, s, k =>
    let c := check_single_url now collect extract search_texts (fetch url) url s
    let p := processInfos outcomes url c.1 c.2.1 k
    let r := run_check now collect extract outcomes search_texts fetch rest p.1 p.2.1
    (!c.1.isEmpty || r.1, r.2.1, r.2.2.1, p.2.2.1 ++ r.2.2.2.1, c.2.2 ++ p.2.2.2 ++ r.2.2.2.2)

/-- Input of one monitoring cycle: the commit timestamp the cycle uses and the
per-url fetch results. -/
structure CycleInput where
  now : Nat
  fetch : Str → Option Str

/-- Repeated `run_check` cycles as driven by `start_monitoring`
(monitor.py lines 532-571), accumulating dispatch events and intermediate
states across cycles. -/
def run_cycles (collect : Str → List Str) (extract : Str → List Str → List Str)
    (outcomes : Nat → Bool) (search_texts urls : List Str) :
    List CycleInput → MonitorState → Nat →
    MonitorState × Nat × List DEvent × List MonitorState
  | [], s, k => (s, k, [], [])
  | c :: cs, s, k =>
    let r := run_check c.now collect extract outcomes search_texts c.fetch urls s k
    let r' := run_cycles collect extract outcomes search_texts urls cs r.2.1 r.2.2.1
    (r'.1, r'.2.1, r.2.2.2.1 ++ r'.2.2.1, r.2.2.2.2 ++ r'.2.2.2)

/-! ## Completion accounting (monitor.py lines 499-514) and auto-stop -/

/-- The (url, term) pairs enumerated by the nested loops of
`get_completion_status`. -/
def allPairs : List Str → List Str → List (Str × Str)
  | [], _ => []
  | u :: us, ts => ts.map (fun t => (u, t)) ++ allPairs us ts

/-- `SiteMonitor.get_completion_status` (monitor.py lines 499-509): the number
of pairs whose `found_items` entry is set, and the fixed total
`len(urls) * len(search_texts)`. -/
def get_completion_status (urls search_texts : List Str) (s : MonitorState) : Nat × Nat :=
  ((allPairs urls search_texts).countP (fun p => (s.found_items p.1 p.2).isSome),
   urls.length * search_texts.length)

/-- `SiteMonitor.all_items_found` (monitor.py lines 511-514):
`found_count == total_expected`. -/
def all_items_found (urls search_texts : List Str) (s : MonitorState) : Bool :=
  (get_completion_status urls search_texts s).1 == (get_completion_status urls search_texts s).2

/-- The auto-stop decision of `start_monitoring` (monitor.py line 540):
`if self.all_items_found() and self.auto_stop_on_found: ... sys.exit(0)`. -/
def should_auto_stop (auto_stop_on_found : Bool) (urls search_texts : List Str)
    (s : MonitorState) : Bool :=
  all_items_found urls search_texts s && auto_stop_on_found

/-! ## Temporal predicates used to state the claims -/

/-- Dispatch outcomes of the events concerning one (url, term) pair, in order. -/
def evFor (u t : Str) (evs : List DEvent) : List Bool :=
  (evs.filter (fun e => e.url == u && e.term == t)).map DEvent.ok

/-- Relation between the `notification_sent` flag of a pair before a run
segment, the outcomes of the pair's dispatch attempts inside the segment, and
the flag after it: a set flag admits no further attempts, every attempt but
the last failed, and the flag ends at the last outcome (or stays put). -/
def FlagInv (b : Bool) (l : List Bool) (b' : Bool) : Prop :=
  (b = true → l = []) ∧ l.dropLast.all (fun x => !x) = true ∧ b' = l.getLastD b

/-- Position of a pair in the ledger order NotFound < Found < Notified. -/
def pairOrd (s : MonitorState) (u t : Str) : Nat :=
  if s.notification_sent u t then 2 else if (s.found_items u t).isSome then 1 else 0

/-- Well-formedness: a notified pair always carries a found timestamp. -/
def WFS (s : MonitorState) : Prop :=
  ∀ u t, s.notification_sent u t = true → (s.found_items u t).isSome = true

/-- One observable ledger step: per pair, the found timestamp is never cleared
or overwritten, and the state either moves forward in the order
NotFound < Found < Notified or is the explicit revert-on-notify-failure
(notified flag lowered, found timestamp kept — Found stays Found). -/
def LedgerMono (a b : MonitorState) : Prop :=
  ∀ u t,
    (∀ v, a.found_items u t = some v → b.found_items u t = some v) ∧
    (pairOrd a u t ≤ pairOrd b u t ∨
      (a.notification_sent u t = true ∧ b.notification_sent u t = false ∧
       b.found_items u t = a.found_items u t ∧ (a.found_items u t).isSome = true))

/-- A run segment from `s` through the intermediate states `tr` to `s'`:
consecutive states are `LedgerMono` steps, the segment ends at `s'`, and
well-formedness is preserved. -/
def SegOK (s : MonitorState) (tr : List MonitorState) (s' : MonitorState) : Prop :=
  List.Chain' LedgerMono (s :: tr) ∧ tr.getLastD s = s' ∧ (WFS s → ∀ x ∈ tr, WFS x)

/-! ## Concrete inputs used by the witnesses and counterexamples -/

/-- A concrete monitored url. -/
def exU : Str := ['u']

/-- A second concrete url. -/
def exV : Str := ['v']

/-- A concrete search term. -/
def exT : Str := ['a']

/-- Content collector returning the page itself as the single piece. -/
def exCollectId : Str → List Str := fun h => [h]

/-- Detail extractor producing one record per newly found term. -/
def exExtractId : Str → List Str → List Str := fun _ fts => fts

/-- Fetch oracle: every url serves a page consisting of the term. -/
def exFetchA : Str → Option Str := fun _ => some ['a']

/-- Fetch oracle modelling a fetch that fails after all retries. -/
def exFetchNone : Str → Option Str := fun _ => none

/-- Dispatch outcomes: the first attempt fails, later attempts succeed. -/
def exOutFail0 : Nat → Bool := fun k => k != 0

/-- Dispatch outcomes: every attempt succeeds. -/
def exOutTrue : Nat → Bool := fun _ => true

/-- Two monitoring cycles, both fetching the matching page. -/
def exCycles2 : List CycleInput := [⟨5, exFetchA⟩, ⟨9, exFetchA⟩]

/-- The two-cycle run in which the single discovery's notification dispatch
fails in cycle one and every later dispatch attempt would succeed. -/
def exRunFail : MonitorState × Nat × List DEvent × List MonitorState :=
  run_cycles exCollectId exExtractId exOutFail0 [exT] [exU] exCycles2 initState 0

/-- A single-cycle run with all dispatches succeeding. -/
def exRunOk : MonitorState × Nat × List DEvent × List MonitorState :=
  run_cycles exCollectId exExtractId exOutTrue [exT] [exU] [⟨5, exFetchA⟩] initState 0

/-! ## Helper lemmas on lists -/

theorem getLastD_append_right {α : Type} (l1 : List α) {l2 : List α} (d : α)
    (h : l2 ≠ []) : (l1 ++ l2).getLastD d = l2.getLastD d := by
  induction l1 generalizing d with
  | nil => rfl
  | cons a l ih =>
    cases l2 with
    | nil => exact absurd rfl h
    | cons b m => simp only [List.cons_append, List.getLastD_cons, ih a]

theorem getLast?_cons_getLastD {α : Type} : ∀ (a : α) (l : List α),
    (a :: l).getLast? = some (l.getLastD a)
  | _, [] => rfl
  | a, b :: l => by
    rw [List.getLast?_cons_cons, getLast?_cons_getLastD b l, List.getLastD_cons]

/-! ## Normalizer lemmas: the source pipeline equals the reference pipeline -/

theorem alnum_not_space (c : Char) (h : isAlnumLower c = true) :
    isPySpace c = false := by
  cases hs : isPySpace c with
  | false => rfl
  | true =>
    exfalso
    have hd := hs
    simp only [isPySpace, Bool.or_eq_true, beq_iff_eq] at hd
    rcases hd with ((((rfl | rfl) | rfl) | rfl) | rfl) | rfl <;> exact absurd h (by decide)

/-- Relation between the two character substitutions: either the characters
agree and are not whitespace, or both are whitespace. -/
def SpRel (a b : Char) : Prop :=
  (a = b ∧ isPySpace a = false) ∨ (isPySpace a = true ∧ isPySpace b = true)

theorem SpRel.space_eq {a b : Char} (h : SpRel a b) :
    isPySpace a = isPySpace b := by
  rcases h with ⟨rfl, _⟩ | ⟨ha, hb⟩
  · rfl
  · rw [ha, hb]

theorem collapseWS_congr {xs : Str} : ∀ {ys : Str},
    List.Forall₂ SpRel xs ys → collapseWS xs = collapseWS ys := by
  induction xs with
  | nil =>
    intro ys h
    cases h
    rfl
  | cons a as ih =>
    intro ys h
    cases h with
    | cons hab htail =>
      rename_i b bs
      cases as with
      | nil =>
        cases htail
        rcases hab with ⟨rfl, _⟩ | ⟨ha, hb⟩
        · rfl
        · simp [collapseWS, ha, hb]
      | cons a' as' =>
        cases htail with
        | cons hab' htail' =>
          rename_i b' bs'
          have ihtail : collapseWS (a' :: as') = collapseWS (b' :: bs') :=
            ih (List.Forall₂.cons hab' htail')
          have e1 : isPySpace a = isPySpace b := hab.space_eq
          have e2 : isPySpace a' = isPySpace b' := hab'.space_eq
          rcases hab with ⟨rfl, _⟩ | ⟨ha, hb⟩
          · simp only [collapseWS, e2, ihtail]
          · simp only [collapseWS, e1, e2, ihtail, ha, hb, Bool.true_and, if_true]

theorem spRel_map (l : Str) :
    List.Forall₂ SpRel (l.map substNonAlnumKeepWS) (l.map substNonAlnumRef) := by
  induction l with
  | nil => exact List.Forall₂.nil
  | cons c l ih =>
    refine List.Forall₂.cons ?_ ih
    cases ha : isAlnumLower c with
    | true =>
      have hs := alnum_not_space c ha
      exact Or.inl (by simp [substNonAlnumKeepWS, substNonAlnumRef, ha, hs])
    | false =>
      cases hs : isPySpace c with
      | true =>
        have h1 : substNonAlnumKeepWS c = c := by simp [substNonAlnumKeepWS, hs]
        have h2 : substNonAlnumRef c = ' ' := by simp [substNonAlnumRef, ha]
        exact Or.inr (by rw [h1, h2]; exact ⟨hs, by decide⟩)
      | false =>
        have h1 : substNonAlnumKeepWS c = ' ' := by simp [substNonAlnumKeepWS, ha, hs]
        have h2 : substNonAlnumRef c = ' ' := by simp [substNonAlnumRef, ha]
        exact Or.inr (by rw [h1, h2]; exact ⟨by decide, by decide⟩)

theorem strContains_iff_infix (hay needle : Str) :
    strContains hay needle = true ↔ needle <:+: hay := by
  induction hay with
  | nil =>
    simp only [strContains, List.isEmpty_iff, List.infix_nil]
  | cons c t ih =>
    simp only [strContains, Bool.or_eq_true, List.isPrefixOf_iff_prefix, ih,
      List.infix_cons_iff]

/-! ## Commit lemmas -/

theorem commitFound_found_eq (url t : Str) (now : Nat) (s : MonitorState) :
    (commitFound url t now s).2.found_items url t =
      (if s.found_items url t = none then some now else s.found_items url t) := by
  by_cases h : s.found_items url t = none
  · simp [commitFound, h, updFound]
  · simp [commitFound, h]

theorem commitFound_found_other (url t u t' : Str) (now : Nat) (s : MonitorState)
    (h : ¬(u = url ∧ t' = t)) :
    (commitFound url t now s).2.found_items u t' = s.found_items u t' := by
  by_cases hg : s.found_items url t = none
  · simp [commitFound, hg, updFound, h]
  · simp [commitFound, hg]

theorem commitFound_flag_eq (url t : Str) (now : Nat) (s : MonitorState) :
    (commitFound url t now s).2.notification_sent = s.notification_sent := by
  by_cases hg : s.found_items url t = none
  · simp [commitFound, hg]
  · simp [commitFound, hg]

theorem commitFound_found_mono (url t u t' : Str) (now : Nat) (s : MonitorState)
    (v : Nat) (h : s.found_items u t' = some v) :
    (commitFound url t now s).2.found_items u t' = some v := by
  by_cases hk : u = url ∧ t' = t
  · rcases hk with ⟨rfl, rfl⟩
    rw [commitFound_found_eq]
    simp [h]
  · rw [commitFound_found_other url t u t' now s hk]
    exact h

/-! ## Lemmas about the pattern-check loop -/

theorem commitState_found_key (now : Nat) (url t : Str) (s : MonitorState) :
    (commitState now url t s).found_items url t = some now := by
  simp [commitState, updFound]

theorem commitState_found_other (now : Nat) (url t u t' : Str) (s : MonitorState)
    (h : ¬(u = url ∧ t' = t)) :
    (commitState now url t s).found_items u t' = s.found_items u t' := by
  simp [commitState, updFound, h]

theorem commitState_flag (now : Nat) (url t : Str) (s : MonitorState) :
    (commitState now url t s).notification_sent = s.notification_sent := rfl

theorem ctl_cons (now : Nat) (url nc t : Str) (ts : List Str) (s : MonitorState) :
    checkTermsLoop now url nc (t :: ts) s =
      if (s.found_items url t).isSome then checkTermsLoop now url nc ts s
      else if strContains nc (normalize_text t) then
        (t :: (checkTermsLoop now url nc ts (commitState now url t s)).1,
         (checkTermsLoop now url nc ts (commitState now url t s)).2.1,
         commitState now url t s :: (checkTermsLoop now url nc ts (commitState now url t s)).2.2)
      else checkTermsLoop now url nc ts s := by
  by_cases h : (s.found_items url t).isSome
  · simp [checkTermsLoop, h]
  · have hn : s.found_items url t = none := Option.not_isSome_iff_eq_none.mp h
    by_cases hm : strContains nc (normalize_text t) = true
    · simp [checkTermsLoop, h, hm, commitFound, hn, commitState]
    · simp [checkTermsLoop, h, hm]

theorem ctl_flag (now : Nat) (url nc : Str) : ∀ (ts : List Str) (s : MonitorState),
    (checkTermsLoop now url nc ts s).2.1.notification_sent = s.notification_sent := by
  intro ts
  induction ts with
  | nil => intro s; rfl
  | cons t ts ih =>
    intro s
    rw [ctl_cons]
    by_cases hf : (s.found_items url t).isSome
    · rw [if_pos hf]; exact ih s
    · rw [if_neg hf]
      by_cases hm : strContains nc (normalize_text t) = true
      · rw [if_pos hm]
        show (checkTermsLoop now url nc ts (commitState now url t s)).2.1.notification_sent =
          s.notification_sent
        rw [ih (commitState now url t s)]
        rfl
      · rw [if_neg hm]; exact ih s

theorem ctl_found_mono (now : Nat) (url nc : Str) : ∀ (ts : List Str) (s : MonitorState)
    (u t' : Str) (v : Nat), s.found_items u t' = some v →
    (checkTermsLoop now url nc ts s).2.1.found_items u t' = some v := by
  intro ts
  induction ts with
  | nil => intro s u t' v h; exact h
  | cons t ts ih =>
    intro s u t' v h
    rw [ctl_cons]
    by_cases hf : (s.found_items url t).isSome
    · rw [if_pos hf]; exact ih s u t' v h
    · rw [if_neg hf]
      by_cases hm : strContains nc (normalize_text t) = true
      · rw [if_pos hm]
        show (checkTermsLoop now url nc ts (commitState now url t s)).2.1.found_items u t' = some v
        refine ih _ u t' v ?_
        by_cases hk : u = url ∧ t' = t
        · rcases hk with ⟨rfl, rfl⟩
          exact absurd (Option.isSome_iff_exists.mpr ⟨v, h⟩) hf
        · rw [commitState_found_other now url t u t' s hk]; exact h
      · rw [if_neg hm]; exact ih s u t' v h

theorem ctl_found_frame (now : Nat) (url nc : Str) : ∀ (ts : List Str) (s : MonitorState)
    (u t' : Str), u ≠ url →
    (checkTermsLoop now url nc ts s).2.1.found_items u t' = s.found_items u t' := by
  intro ts
  induction ts with
  | nil => intro s u t' _; rfl
  | cons t ts ih =>
    intro s u t' hu
    rw [ctl_cons]
    by_cases hf : (s.found_items url t).isSome
    · rw [if_pos hf]; exact ih s u t' hu
    · rw [if_neg hf]
      by_cases hm : strContains nc (normalize_text t) = true
      · rw [if_pos hm]
        show (checkTermsLoop now url nc ts (commitState now url t s)).2.1.found_items u t' =
          s.found_items u t'
        rw [ih (commitState now url t s) u t' hu,
          commitState_found_other now url t u t' s (fun hk => hu hk.1)]
      · rw [if_neg hm]; exact ih s u t' hu

theorem ctl_mem_committed (now : Nat) (url nc : Str) : ∀ (ts : List Str) (s : MonitorState)
    (t' : Str), t' ∈ (checkTermsLoop now url nc ts s).1 →
    (checkTermsLoop now url nc ts s).2.1.found_items url t' = some now := by
  intro ts
  induction ts with
  | nil => intro s t' h; exact absurd h (List.not_mem_nil t')
  | cons t ts ih =>
    intro s t' h
    rw [ctl_cons] at h ⊢
    by_cases hf : (s.found_items url t).isSome
    · rw [if_pos hf] at h ⊢; exact ih s t' h
    · rw [if_neg hf] at h ⊢
      by_cases hm : strContains nc (normalize_text t) = true
      · rw [if_pos hm] at h ⊢
        have h2 : t' = t ∨ t' ∈ (checkTermsLoop now url nc ts (commitState now url t s)).1 :=
          List.mem_cons.mp h
        show (checkTermsLoop now url nc ts (commitState now url t s)).2.1.found_items url t' =
          some now
        rcases h2 with rfl | hmem
        · exact ctl_found_mono now url nc ts (commitState now url t' s) url t' now
            (commitState_found_key now url t' s)
        · exact ih (commitState now url t s) t' hmem
      · rw [if_neg hm] at h ⊢; exact ih s t' h

theorem ctl_mem_iff (now : Nat) (url nc : Str) : ∀ (ts : List Str) (s : MonitorState)
    (t' : Str), t' ∈ (checkTermsLoop now url nc ts s).1 ↔
      t' ∈ ts ∧ strContains nc (normalize_text t') = true ∧ s.found_items url t' = none := by
  intro ts
  induction ts with
  | nil =>
    intro s t'
    simp [checkTermsLoop]
  | cons t ts ih =>
    intro s t'
    rw [ctl_cons]
    by_cases hf : (s.found_items url t).isSome
    · rw [if_pos hf]
      rw [ih s t', List.mem_cons]
      constructor
      · rintro ⟨hmem, hc, hn⟩
        exact ⟨Or.inr hmem, hc, hn⟩
      · rintro ⟨hmem | hmem, hc, hn⟩
        · subst hmem
          exact absurd hf (by simp [hn])
        · exact ⟨hmem, hc, hn⟩
    · rw [if_neg hf]
      have hnone : s.found_items url t = none := Option.not_isSome_iff_eq_none.mp hf
      by_cases hm : strContains nc (normalize_text t) = true
      · rw [if_pos hm]
        have hmem : t' ∈ t :: (checkTermsLoop now url nc ts (commitState now url t s)).1 ↔
            t' = t ∨ t' ∈ (checkTermsLoop now url nc ts (commitState now url t s)).1 :=
          List.mem_cons
        show t' ∈ t :: (checkTermsLoop now url nc ts (commitState now url t s)).1 ↔ _
        rw [hmem, ih (commitState now url t s) t', List.mem_cons]
        constructor
        · rintro (rfl | ⟨hmem2, hc2, hn2⟩)
          · exact ⟨Or.inl rfl, hm, hnone⟩
          · refine ⟨Or.inr hmem2, hc2, ?_⟩
            by_cases hk : t' = t
            · subst hk; exact hnone
            · rw [commitState_found_other now url t url t' s (fun hx => hk hx.2)] at hn2
              exact hn2
        · rintro ⟨rfl | hmem2, hc2, hn2⟩
          · exact Or.inl rfl
          · by_cases hk : t' = t
            · exact Or.inl hk
            · refine Or.inr ⟨hmem2, hc2, ?_⟩
              rw [commitState_found_other now url t url t' s (fun hx => hk hx.2)]
              exact hn2
      · rw [if_neg hm]
        rw [ih s t', List.mem_cons]
        constructor
        · rintro ⟨hmem, hc, hn⟩
          exact ⟨Or.inr hmem, hc, hn⟩
        · rintro ⟨hmem | hmem, hc, hn⟩
          · subst hmem
            exact absurd hc hm
          · exact ⟨hmem, hc, hn⟩

/-! ## Segment lemmas for ledger monotonicity -/

theorem getLastD_default_irrel {α : Type} {l : List α} (h : l ≠ []) (d d' : α) :
    l.getLastD d = l.getLastD d' := by
  cases l with
  | nil => exact absurd rfl h
  | cons a m => rfl

theorem segok_nil (s : MonitorState) : SegOK s [] s :=
  ⟨List.chain'_singleton s, rfl, fun _ x hx => absurd hx (List.not_mem_nil x)⟩

theorem segok_single {s s' : MonitorState} (hmono : LedgerMono s s')
    (hwfs : WFS s → WFS s') : SegOK s [s'] s' := by
  refine ⟨?_, rfl, ?_⟩
  · exact List.chain'_cons.mpr ⟨hmono, List.chain'_singleton s'⟩
  · intro hw x hx
    rcases List.mem_singleton.mp hx with rfl
    exact hwfs hw

theorem segok_comp {s s1 s2 : MonitorState} {tr1 tr2 : List MonitorState}
    (h1 : SegOK s tr1 s1) (h2 : SegOK s1 tr2 s2) : SegOK s (tr1 ++ tr2) s2 := by
  obtain ⟨c1, l1, w1⟩ := h1
  obtain ⟨c2, l2, w2⟩ := h2
  have hws1 : WFS s → WFS s1 := by
    intro hw
    have hmem := List.getLastD_mem_cons tr1 s
    rw [l1] at hmem
    rcases List.mem_cons.mp hmem with h | h
    · rw [h]; exact hw
    · exact w1 hw s1 h
  refine ⟨?_, ?_, ?_⟩
  · have hrw : s :: (tr1 ++ tr2) = (s :: tr1) ++ tr2 := rfl
    rw [hrw, List.chain'_append]
    refine ⟨c1, c2.tail, ?_⟩
    intro x hx y hy
    rw [getLast?_cons_getLastD, l1] at hx
    simp only [Option.mem_def, Option.some.injEq] at hx
    subst hx
    exact (List.chain'_cons'.mp c2).1 y hy
  · by_cases ht : tr2 = []
    · subst ht
      rw [List.append_nil, l1]
      simpa using l2
    · rw [getLastD_append_right tr1 s ht, getLastD_default_irrel ht s s1]
      exact l2
  · intro hw x hx
    rcases List.mem_append.mp hx with h | h
    · exact w1 hw x h
    · exact w2 (hws1 hw) x h

theorem ledgerMono_commit (now : Nat) (url t : Str) (s : MonitorState)
    (h : s.found_items url t = none) : LedgerMono s (commitState now url t s) := by
  intro u t'
  by_cases hk : u = url ∧ t' = t
  · rcases hk with ⟨rfl, rfl⟩
    refine ⟨?_, Or.inl ?_⟩
    · intro v hv
      rw [h] at hv
      cases hv
    · unfold pairOrd
      rw [commitState_found_key]
      have hfl : (commitState now u t' s).notification_sent = s.notification_sent := rfl
      rw [hfl]
      cases hb : s.notification_sent u t' <;> simp [h]
  · refine ⟨?_, Or.inl ?_⟩
    · intro v hv
      rw [commitState_found_other now url t u t' s hk]
      exact hv
    · unfold pairOrd
      rw [commitState_found_other now url t u t' s hk]
      exact le_refl _

theorem wfs_commit (now : Nat) (url t : Str) (s : MonitorState) (h : WFS s) :
    WFS (commitState now url t s) := by
  intro u t' hb
  have hs := h u t' hb
  by_cases hk : u = url ∧ t' = t
  · rcases hk with ⟨rfl, rfl⟩
    rw [commitState_found_key]
    rfl
  · rw [commitState_found_other now url t u t' s hk]
    exact hs

theorem ctl_segok (now : Nat) (url nc : Str) : ∀ (ts : List Str) (s : MonitorState),
    SegOK s (checkTermsLoop now url nc ts s).2.2 (checkTermsLoop now url nc ts s).2.1 := by
  intro ts
  induction ts with
  | nil => intro s; exact segok_nil s
  | cons t ts ih =>
    intro s
    rw [ctl_cons]
    by_cases hf : (s.found_items url t).isSome
    · rw [if_pos hf]; exact ih s
    · rw [if_neg hf]
      have hnone : s.found_items url t = none := Option.not_isSome_iff_eq_none.mp hf
      by_cases hm : strContains nc (normalize_text t) = true
      · rw [if_pos hm]
        have h1 : SegOK s [commitState now url t s] (commitState now url t s) :=
          segok_single (ledgerMono_commit now url t s hnone) (wfs_commit now url t s)
        have h2 := ih (commitState now url t s)
        have := segok_comp h1 h2
        simpa using this
      · rw [if_neg hm]; exact ih s

/-! ## FlagInv lemmas -/

theorem flagInv_nil (b : Bool) : FlagInv b [] b :=
  ⟨fun _ => rfl, rfl, rfl⟩

theorem all_of_dropLast_all : ∀ {l : List Bool} {b : Bool},
    l.dropLast.all (fun x => !x) = true → l.getLastD b = false →
    l.all (fun x => !x) = true := by
  intro l
  induction l with
  | nil => intro b _ _; rfl
  | cons x xs ih =>
    intro b h hlast
    cases xs with
    | nil =>
      have hx : x = false := by simpa [List.getLastD] using hlast
      simp [List.all_cons, hx]
    | cons y ys =>
      rw [List.dropLast_cons₂, List.all_cons, Bool.and_eq_true] at h
      rw [List.getLastD_cons] at hlast
      rw [List.all_cons, Bool.and_eq_true]
      exact ⟨h.1, ih h.2 hlast⟩

theorem flagInv_cons_false {b1 b2 : Bool} {l : List Bool} (h : FlagInv b1 l b2) :
    FlagInv false (b1 :: l) b2 := by
  obtain ⟨h1, h2, h3⟩ := h
  refine ⟨?_, ?_, ?_⟩
  · intro hc
    exact absurd hc (by decide)
  · cases l with
    | nil => rfl
    | cons x xs =>
      have hb1 : b1 = false := by
        cases hb : b1
        · rfl
        · exact absurd (h1 hb) (List.cons_ne_nil x xs)
      subst hb1
      rw [List.dropLast_cons₂, List.all_cons, Bool.and_eq_true]
      exact ⟨rfl, h2⟩
  · rw [List.getLastD_cons]
    exact h3

theorem flagInv_comp {b b' b2 : Bool} {l1 l2 : List Bool}
    (h1 : FlagInv b l1 b') (h2 : FlagInv b' l2 b2) : FlagInv b (l1 ++ l2) b2 := by
  obtain ⟨a1, a2, a3⟩ := h1
  obtain ⟨c1, c2, c3⟩ := h2
  refine ⟨?_, ?_, ?_⟩
  · intro hb
    have e1 := a1 hb
    have hb' : b' = true := by rw [a3, e1]; exact hb
    rw [e1, c1 hb']
    rfl
  · by_cases hl2 : l2 = []
    · subst hl2
      rw [List.append_nil]
      exact a2
    · rw [List.dropLast_append_of_ne_nil l1 hl2, List.all_append, Bool.and_eq_true]
      have hb' : b' = false := by
        cases hbv : b'
        · rfl
        · exact absurd (c1 hbv) hl2
      have hlast : l1.getLastD b = false := by rw [← a3]; exact hb'
      exact ⟨all_of_dropLast_all a2 hlast, c2⟩
  · by_cases hl2 : l2 = []
    · subst hl2
      rw [List.append_nil, ← a3]
      simpa using c3
    · rw [getLastD_append_right l1 b hl2, getLastD_default_irrel hl2 b b']
      exact c3

theorem evFor_append (u t : Str) (l1 l2 : List DEvent) :
    evFor u t (l1 ++ l2) = evFor u t l1 ++ evFor u t l2 := by
  simp [evFor]

/-! ## Lemmas about the notification loop -/

theorem claimState_flag_key (url t : Str) (s : MonitorState) :
    (claimState url t s).notification_sent url t = true := by
  simp [claimState, updFlag]

theorem claimState_flag_other (url t u t' : Str) (s : MonitorState)
    (h : ¬(u = url ∧ t' = t)) :
    (claimState url t s).notification_sent u t' = s.notification_sent u t' := by
  simp [claimState, updFlag, h]

theorem claimState_found (url t : Str) (s : MonitorState) :
    (claimState url t s).found_items = s.found_items := rfl

theorem revertState_flag_key (url t : Str) (s : MonitorState) :
    (revertState url t s).notification_sent url t = false := by
  simp [revertState, updFlag]

theorem revertState_flag_other (url t u t' : Str) (s : MonitorState)
    (h : ¬(u = url ∧ t' = t)) :
    (revertState url t s).notification_sent u t' = s.notification_sent u t' := by
  simp [revertState, updFlag, h]

theorem revertState_found (url t : Str) (s : MonitorState) :
    (revertState url t s).found_items = s.found_items := rfl

theorem pi_cons_skip (outcomes : Nat → Bool) (url t : Str) (ts : List Str)
    (s : MonitorState) (k : Nat) (h : s.notification_sent url t = true) :
    processInfos outcomes url (t :: ts) s k = processInfos outcomes url ts s k := by
  simp [processInfos, h]

theorem pi_cons_ok (outcomes : Nat → Bool) (url t : Str) (ts : List Str)
    (s : MonitorState) (k : Nat) (h : s.notification_sent url t = false)
    (hok : outcomes k = true) :
    processInfos outcomes url (t :: ts) s k =
      ((processInfos outcomes url ts (claimState url t s) (k + 1)).1,
       (processInfos outcomes url ts (claimState url t s) (k + 1)).2.1,
       ⟨url, t, true⟩ :: (processInfos outcomes url ts (claimState url t s) (k + 1)).2.2.1,
       claimState url t s ::
         (processInfos outcomes url ts (claimState url t s) (k + 1)).2.2.2) := by
  simp [processInfos, h, hok, claimState]

theorem pi_cons_fail (outcomes : Nat → Bool) (url t : Str) (ts : List Str)
    (s : MonitorState) (k : Nat) (h : s.notification_sent url t = false)
    (hok : outcomes k = false) :
    processInfos outcomes url (t :: ts) s k =
      ((processInfos outcomes url ts (revertState url t (claimState url t s)) (k + 1)).1,
       (processInfos outcomes url ts (revertState url t (claimState url t s)) (k + 1)).2.1,
       ⟨url, t, false⟩ ::
         (processInfos outcomes url ts (revertState url t (claimState url t s)) (k + 1)).2.2.1,
       claimState url t s :: revertState url t (claimState url t s) ::
         (processInfos outcomes url ts (revertState url t (claimState url t s)) (k + 1)).2.2.2) := by
  simp [processInfos, h, hok, claimState, revertState]

theorem pi_found (outcomes : Nat → Bool) (url : Str) : ∀ (ts : List Str)
    (s : MonitorState) (k : Nat),
    (processInfos outcomes url ts s k).1.found_items = s.found_items := by
  intro ts
  induction ts with
  | nil => intro s k; rfl
  | cons t ts ih =>
    intro s k
    cases hf : s.notification_sent url t with
    | true => rw [pi_cons_skip outcomes url t ts s k hf]; exact ih s k
    | false =>
      cases hok : outcomes k with
      | true =>
        rw [pi_cons_ok outcomes url t ts s k hf hok]
        exact ih (claimState url t s) (k + 1)
      | false =>
        rw [pi_cons_fail outcomes url t ts s k hf hok]
        exact ih (revertState url t (claimState url t s)) (k + 1)

theorem pi_flag_frame (outcomes : Nat → Bool) (url : Str) : ∀ (ts : List Str)
    (s : MonitorState) (k : Nat) (u t' : Str), u ≠ url →
    (processInfos outcomes url ts s k).1.notification_sent u t' =
      s.notification_sent u t' := by
  intro ts
  induction ts with
  | nil => intro s k u t' _; rfl
  | cons t ts ih =>
    intro s k u t' hu
    have hkey : ¬(u = url ∧ t' = t) := fun hx => hu hx.1
    cases hf : s.notification_sent url t with
    | true => rw [pi_cons_skip outcomes url t ts s k hf]; exact ih s k u t' hu
    | false =>
      cases hok : outcomes k with
      | true =>
        rw [pi_cons_ok outcomes url t ts s k hf hok]
        rw [ih (claimState url t s) (k + 1) u t' hu]
        exact claimState_flag_other url t u t' s hkey
      | false =>
        rw [pi_cons_fail outcomes url t ts s k hf hok]
        rw [ih (revertState url t (claimState url t s)) (k + 1) u t' hu]
        rw [revertState_flag_other url t u t' (claimState url t s) hkey]
        exact claimState_flag_other url t u t' s hkey

theorem pi_events_shape (outcomes : Nat → Bool) (url : Str) : ∀ (ts : List Str)
    (s : MonitorState) (k : Nat) (e : DEvent),
    e ∈ (processInfos outcomes url ts s k).2.2.1 → e.url = url ∧ e.term ∈ ts := by
  intro ts
  induction ts with
  | nil => intro s k e he; exact absurd he (List.not_mem_nil e)
  | cons t ts ih =>
    intro s k e he
    cases hf : s.notification_sent url t with
    | true =>
      rw [pi_cons_skip outcomes url t ts s k hf] at he
      obtain ⟨h1, h2⟩ := ih s k e he
      exact ⟨h1, List.mem_cons_of_mem t h2⟩
    | false =>
      cases hok : outcomes k with
      | true =>
        rw [pi_cons_ok outcomes url t ts s k hf hok] at he
        rcases List.mem_cons.mp he with rfl | he'
        · exact ⟨rfl, List.mem_cons_self t ts⟩
        · obtain ⟨h1, h2⟩ := ih (claimState url t s) (k + 1) e he'
          exact ⟨h1, List.mem_cons_of_mem t h2⟩
      | false =>
        rw [pi_cons_fail outcomes url t ts s k hf hok] at he
        rcases List.mem_cons.mp he with rfl | he'
        · exact ⟨rfl, List.mem_cons_self t ts⟩
        · obtain ⟨h1, h2⟩ := ih (revertState url t (claimState url t s)) (k + 1) e he'
          exact ⟨h1, List.mem_cons_of_mem t h2⟩

theorem evFor_cons_hit (u t' : Str) (b : Bool) (evs : List DEvent) :
    evFor u t' (⟨u, t', b⟩ :: evs) = b :: evFor u t' evs := by
  simp [evFor, List.filter_cons]

theorem evFor_cons_miss (u t' url t : Str) (b : Bool) (evs : List DEvent)
    (h : ¬(url = u ∧ t = t')) :
    evFor u t' (⟨url, t, b⟩ :: evs) = evFor u t' evs := by
  have hb : (url == u && t == t') = false := by
    cases h1 : (url == u) with
    | false => simp
    | true =>
      cases h2 : (t == t') with
      | false => simp
      | true => exact absurd ⟨eq_of_beq h1, eq_of_beq h2⟩ h
  simp [evFor, List.filter_cons, hb]

theorem pi_flagInv (outcomes : Nat → Bool) (url : Str) : ∀ (ts : List Str)
    (s : MonitorState) (k : Nat) (u t' : Str),
    FlagInv (s.notification_sent u t')
      (evFor u t' (processInfos outcomes url ts s k).2.2.1)
      ((processInfos outcomes url ts s k).1.notification_sent u t') := by
  intro ts
  induction ts with
  | nil => intro s k u t'; exact flagInv_nil _
  | cons t ts ih =>
    intro s k u t'
    cases hf : s.notification_sent url t with
    | true =>
      rw [pi_cons_skip outcomes url t ts s k hf]
      exact ih s k u t'
    | false =>
      by_cases hc : url = u ∧ t = t'
      · rcases hc with ⟨rfl, rfl⟩
        cases hok : outcomes k with
        | true =>
          rw [pi_cons_ok outcomes url t ts s k hf hok]
          show FlagInv (s.notification_sent url t)
            (evFor url t (⟨url, t, true⟩ ::
              (processInfos outcomes url ts (claimState url t s) (k + 1)).2.2.1)) _
          rw [evFor_cons_hit, hf]
          have h2 := ih (claimState url t s) (k + 1) url t
          rw [claimState_flag_key] at h2
          exact flagInv_cons_false h2
        | false =>
          rw [pi_cons_fail outcomes url t ts s k hf hok]
          show FlagInv (s.notification_sent url t)
            (evFor url t (⟨url, t, false⟩ ::
              (processInfos outcomes url ts
                (revertState url t (claimState url t s)) (k + 1)).2.2.1)) _
          rw [evFor_cons_hit, hf]
          have h2 := ih (revertState url t (claimState url t s)) (k + 1) url t
          rw [revertState_flag_key] at h2
          exact flagInv_cons_false h2
      · have hne : ¬(u = url ∧ t' = t) := fun hx => hc ⟨hx.1.symm, hx.2.symm⟩
        cases hok : outcomes k with
        | true =>
          rw [pi_cons_ok outcomes url t ts s k hf hok]
          show FlagInv (s.notification_sent u t')
            (evFor u t' (⟨url, t, true⟩ ::
              (processInfos outcomes url ts (claimState url t s) (k + 1)).2.2.1)) _
          rw [evFor_cons_miss u t' url t true _ hc]
          have h2 := ih (claimState url t s) (k + 1) u t'
          rw [claimState_flag_other url t u t' s hne] at h2
          exact h2
        | false =>
          rw [pi_cons_fail outcomes url t ts s k hf hok]
          show FlagInv (s.notification_sent u t')
            (evFor u t' (⟨url, t, false⟩ ::
              (processInfos outcomes url ts
                (revertState url t (claimState url t s)) (k + 1)).2.2.1)) _
          rw [evFor_cons_miss u t' url t false _ hc]
          have h2 := ih (revertState url t (claimState url t s)) (k + 1) u t'
          rw [revertState_flag_other url t u t' (claimState url t s) hne,
            claimState_flag_other url t u t' s hne] at h2
          exact h2

theorem pairOrd_le_two (s : MonitorState) (u t : Str) : pairOrd s u t ≤ 2 := by
  unfold pairOrd
  split_ifs <;> omega

theorem ledgerMono_claim (url t : Str) (s : MonitorState) :
    LedgerMono s (claimState url t s) := by
  intro u t'
  by_cases hk : u = url ∧ t' = t
  · rcases hk with ⟨rfl, rfl⟩
    refine ⟨fun v hv => hv, Or.inl ?_⟩
    have h2 : pairOrd (claimState u t' s) u t' = 2 := by
      unfold pairOrd
      rw [claimState_flag_key]
      rfl
    rw [h2]
    exact pairOrd_le_two s u t'
  · refine ⟨fun v hv => hv, Or.inl ?_⟩
    unfold pairOrd
    rw [claimState_flag_other url t u t' s hk]
    exact le_refl _

theorem wfs_claim (url t : Str) (s : MonitorState)
    (hfound : (s.found_items url t).isSome = true) (h : WFS s) :
    WFS (claimState url t s) := by
  intro u t' hb
  by_cases hk : u = url ∧ t' = t
  · rcases hk with ⟨rfl, rfl⟩
    exact hfound
  · rw [claimState_flag_other url t u t' s hk] at hb
    exact h u t' hb

theorem ledgerMono_revert (url t : Str) (s : MonitorState)
    (hflag : s.notification_sent url t = true)
    (hfound : (s.found_items url t).isSome = true) :
    LedgerMono s (revertState url t s) := by
  intro u t'
  by_cases hk : u = url ∧ t' = t
  · rcases hk with ⟨rfl, rfl⟩
    exact ⟨fun v hv => hv, Or.inr ⟨hflag, revertState_flag_key u t' s, rfl, hfound⟩⟩
  · refine ⟨fun v hv => hv, Or.inl ?_⟩
    unfold pairOrd
    rw [revertState_flag_other url t u t' s hk]
    exact le_refl _

theorem wfs_revert (url t : Str) (s : MonitorState) (h : WFS s) :
    WFS (revertState url t s) := by
  intro u t' hb
  by_cases hk : u = url ∧ t' = t
  · rcases hk with ⟨rfl, rfl⟩
    rw [revertState_flag_key] at hb
    exact absurd hb (by decide)
  · rw [revertState_flag_other url t u t' s hk] at hb
    exact h u t' hb

theorem pi_segok (outcomes : Nat → Bool) (url : Str) : ∀ (ts : List Str)
    (s : MonitorState) (k : Nat),
    (∀ t' ∈ ts, (s.found_items url t').isSome = true) →
    SegOK s (processInfos outcomes url ts s k).2.2.2
      (processInfos outcomes url ts s k).1 := by
  intro ts
  induction ts with
  | nil => intro s k _; exact segok_nil s
  | cons t ts ih =>
    intro s k hinf
    have hft : (s.found_items url t).isSome = true := hinf t (List.mem_cons_self t ts)
    have hfts : ∀ t' ∈ ts, (s.found_items url t').isSome = true :=
      fun t' ht' => hinf t' (List.mem_cons_of_mem t ht')
    cases hf : s.notification_sent url t with
    | true =>
      rw [pi_cons_skip outcomes url t ts s k hf]
      exact ih s k hfts
    | false =>
      cases hok : outcomes k with
      | true =>
        rw [pi_cons_ok outcomes url t ts s k hf hok]
        have h1 : SegOK s [claimState url t s] (claimState url t s) :=
          segok_single (ledgerMono_claim url t s) (wfs_claim url t s hft)
        have h2 := ih (claimState url t s) (k + 1) hfts
        have := segok_comp h1 h2
        simpa using this
      | false =>
        rw [pi_cons_fail outcomes url t ts s k hf hok]
        have h1 : SegOK s [claimState url t s] (claimState url t s) :=
          segok_single (ledgerMono_claim url t s) (wfs_claim url t s hft)
        have h1b : SegOK (claimState url t s)
            [revertState url t (claimState url t s)]
            (revertState url t (claimState url t s)) :=
          segok_single
            (ledgerMono_revert url t (claimState url t s)
              (claimState_flag_key url t s) hft)
            (wfs_revert url t (claimState url t s))
        have h2 := ih (revertState url t (claimState url t s)) (k + 1) hfts
        have := segok_comp h1 (segok_comp h1b h2)
        simpa using this

/-! ## Lemmas about the single-url check -/

theorem cfp_spec (now : Nat) (collect : Str → List Str)
    (extract : Str → List Str → List Str) (terms : List Str) (url h : Str)
    (s : MonitorState) (hne : h.isEmpty = false) :
    check_for_patterns now collect extract terms url (some h) s =
      ⟨!(checkTermsLoop now url (normalize_text (joinContent (collect h))) terms s).1.isEmpty,
       if (checkTermsLoop now url (normalize_text (joinContent (collect h))) terms s).1.isEmpty
         then []
         else extract h
           (checkTermsLoop now url (normalize_text (joinContent (collect h))) terms s).1,
       (checkTermsLoop now url (normalize_text (joinContent (collect h))) terms s).1,
       (checkTermsLoop now url (normalize_text (joinContent (collect h))) terms s).2.1,
       (checkTermsLoop now url (normalize_text (joinContent (collect h))) terms s).2.2⟩ := by
  by_cases hem : (checkTermsLoop now url (normalize_text (joinContent (collect h))) terms s).1.isEmpty
  · simp [check_for_patterns, hne, hem]
  · simp [check_for_patterns, hne, hem]

theorem csu_none (now : Nat) (collect : Str → List Str)
    (extract : Str → List Str → List Str) (terms : List Str) (url : Str)
    (s : MonitorState) :
    check_single_url now collect extract terms none url s = ([], s, []) := rfl

theorem csu_empty (now : Nat) (collect : Str → List Str)
    (extract : Str → List Str → List Str) (terms : List Str) (url h : Str)
    (s : MonitorState) (hem : h.isEmpty = true) :
    check_single_url now collect extract terms (some h) url s = ([], s, []) := by
  simp [check_single_url, hem]

theorem csu_infos_gen (now : Nat) (collect : Str → List Str)
    (extract : Str → List Str → List Str) (terms : List Str) (url h : Str)
    (s : MonitorState) (hne : h.isEmpty = false) :
    (check_single_url now collect extract terms (some h) url s).1 =
      (if ((check_for_patterns now collect extract terms url (some h) s).found &&
          !(check_for_patterns now collect extract terms url (some h) s).product_info.isEmpty) = true
       then (check_for_patterns now collect extract terms url (some h) s).product_info
       else []) := by
  simp only [check_single_url, hne, Bool.false_eq_true, if_false]
  split
  · rfl
  · rfl

theorem csu_state_gen (now : Nat) (collect : Str → List Str)
    (extract : Str → List Str → List Str) (terms : List Str) (url h : Str)
    (s : MonitorState) (hne : h.isEmpty = false) :
    (check_single_url now collect extract terms (some h) url s).2.1 =
      (check_for_patterns now collect extract terms url (some h) s).state := by
  simp only [check_single_url, hne, Bool.false_eq_true, if_false]
  split
  · rfl
  · rfl

theorem csu_trace_gen (now : Nat) (collect : Str → List Str)
    (extract : Str → List Str → List Str) (terms : List Str) (url h : Str)
    (s : MonitorState) (hne : h.isEmpty = false) :
    (check_single_url now collect extract terms (some h) url s).2.2 =
      (check_for_patterns now collect extract terms url (some h) s).trace := by
  simp only [check_single_url, hne, Bool.false_eq_true, if_false]
  split
  · rfl
  · rfl

theorem csu_state (now : Nat) (collect : Str → List Str)
    (extract : Str → List Str → List Str) (terms : List Str) (url h : Str)
    (s : MonitorState) (hne : h.isEmpty = false) :
    (check_single_url now collect extract terms (some h) url s).2.1 =
      (checkTermsLoop now url (normalize_text (joinContent (collect h))) terms s).2.1 := by
  rw [csu_state_gen now collect extract terms url h s hne,
    cfp_spec now collect extract terms url h s hne]

theorem csu_trace (now : Nat) (collect : Str → List Str)
    (extract : Str → List Str → List Str) (terms : List Str) (url h : Str)
    (s : MonitorState) (hne : h.isEmpty = false) :
    (check_single_url now collect extract terms (some h) url s).2.2 =
      (checkTermsLoop now url (normalize_text (joinContent (collect h))) terms s).2.2 := by
  rw [csu_trace_gen now collect extract terms url h s hne,
    cfp_spec now collect extract terms url h s hne]

theorem csu_flag (now : Nat) (collect : Str → List Str)
    (extract : Str → List Str → List Str) (terms : List Str)
    (fetched : Option Str) (url : Str) (s : MonitorState) :
    (check_single_url now collect extract terms fetched url s).2.1.notification_sent =
      s.notification_sent := by
  cases fetched with
  | none => rfl
  | some h =>
    cases hne : h.isEmpty with
    | true => rw [csu_empty now collect extract terms url h s hne]
    | false =>
      rw [csu_state now collect extract terms url h s hne]
      exact ctl_flag now url _ terms s

theorem csu_found_mono (now : Nat) (collect : Str → List Str)
    (extract : Str → List Str → List Str) (terms : List Str)
    (fetched : Option Str) (url : Str) (s : MonitorState) (u t' : Str) (v : Nat)
    (hv : s.found_items u t' = some v) :
    (check_single_url now collect extract terms fetched url s).2.1.found_items u t' =
      some v := by
  cases fetched with
  | none => exact hv
  | some h =>
    cases hne : h.isEmpty with
    | true => rw [csu_empty now collect extract terms url h s hne]; exact hv
    | false =>
      rw [csu_state now collect extract terms url h s hne]
      exact ctl_found_mono now url _ terms s u t' v hv

theorem csu_found_frame (now : Nat) (collect : Str → List Str)
    (extract : Str → List Str → List Str) (terms : List Str)
    (fetched : Option Str) (url : Str) (s : MonitorState) (u t' : Str)
    (hu : u ≠ url) :
    (check_single_url now collect extract terms fetched url s).2.1.found_items u t' =
      s.found_items u t' := by
  cases fetched with
  | none => rfl
  | some h =>
    cases hne : h.isEmpty with
    | true => rw [csu_empty now collect extract terms url h s hne]
    | false =>
      rw [csu_state now collect extract terms url h s hne]
      exact ctl_found_frame now url _ terms s u t' hu

theorem csu_segok (now : Nat) (collect : Str → List Str)
    (extract : Str → List Str → List Str) (terms : List Str)
    (fetched : Option Str) (url : Str) (s : MonitorState) :
    SegOK s (check_single_url now collect extract terms fetched url s).2.2
      (check_single_url now collect extract terms fetched url s).2.1 := by
  cases fetched with
  | none => exact segok_nil s
  | some h =>
    cases hne : h.isEmpty with
    | true => rw [csu_empty now collect extract terms url h s hne]; exact segok_nil s
    | false =>
      rw [csu_state now collect extract terms url h s hne,
        csu_trace now collect extract terms url h s hne]
      exact ctl_segok now url _ terms s

theorem csu_infos_committed (now : Nat) (collect : Str → List Str)
    (extract : Str → List Str → List Str) (terms : List Str)
    (fetched : Option Str) (url : Str) (s : MonitorState)
    (hex : ∀ h fts t', t' ∈ extract h fts → t' ∈ fts) (t' : Str)
    (ht : t' ∈ (check_single_url now collect extract terms fetched url s).1) :
    (check_single_url now collect extract terms fetched url s).2.1.found_items url t' =
      some now := by
  cases fetched with
  | none => exact absurd ht (List.not_mem_nil t')
  | some h =>
    cases hne : h.isEmpty with
    | true =>
      rw [csu_empty now collect extract terms url h s hne] at ht
      exact absurd ht (List.not_mem_nil t')
    | false =>
      rw [csu_infos_gen now collect extract terms url h s hne] at ht
      rw [csu_state now collect extract terms url h s hne]
      by_cases hb : ((check_for_patterns now collect extract terms url (some h) s).found &&
          !(check_for_patterns now collect extract terms url (some h) s).product_info.isEmpty) = true
      · rw [if_pos hb] at ht
        rw [cfp_spec now collect extract terms url h s hne] at ht
        by_cases hem : (checkTermsLoop now url
            (normalize_text (joinContent (collect h))) terms s).1.isEmpty
        · simp only at ht
          rw [if_pos hem] at ht
          exact absurd ht (List.not_mem_nil t')
        · simp only at ht
          rw [if_neg hem] at ht
          exact ctl_mem_committed now url _ terms s t' (hex h _ t' ht)
      · rw [if_neg hb] at ht
        exact absurd ht (List.not_mem_nil t')

/-! ## Lemmas about a full check cycle and repeated cycles -/

theorem rc_found_mono (now : Nat) (collect : Str → List Str)
    (extract : Str → List Str → List Str) (outcomes : Nat → Bool)
    (terms : List Str) (fetch : Str → Option Str) : ∀ (urls : List Str)
    (s : MonitorState) (k : Nat) (u t : Str) (v : Nat),
    s.found_items u t = some v →
    (run_check now collect extract outcomes terms fetch urls s k).2.1.found_items u t =
      some v := by
  intro urls
  induction urls with
  | nil => intro s k u t v hv; exact hv
  | cons url rest ih =>
    intro s k u t v hv
    simp only [run_check]
    refine ih _ _ u t v ?_
    rw [pi_found]
    exact csu_found_mono now collect extract terms (fetch url) url s u t v hv

theorem rc_flagInv (now : Nat) (collect : Str → List Str)
    (extract : Str → List Str → List Str) (outcomes : Nat → Bool)
    (terms : List Str) (fetch : Str → Option Str) : ∀ (urls : List Str)
    (s : MonitorState) (k : Nat) (u t : Str),
    FlagInv (s.notification_sent u t)
      (evFor u t (run_check now collect extract outcomes terms fetch urls s k).2.2.2.1)
      ((run_check now collect extract outcomes terms fetch urls s k).2.1.notification_sent u t) := by
  intro urls
  induction urls with
  | nil => intro s k u t; exact flagInv_nil _
  | cons url rest ih =>
    intro s k u t
    simp only [run_check]
    rw [evFor_append]
    refine flagInv_comp ?_ (ih _ _ u t)
    have hp := pi_flagInv outcomes url
      (check_single_url now collect extract terms (fetch url) url s).1
      (check_single_url now collect extract terms (fetch url) url s).2.1 k u t
    rw [csu_flag] at hp
    exact hp

theorem rc_segok (now : Nat) (collect : Str → List Str)
    (extract : Str → List Str → List Str) (outcomes : Nat → Bool)
    (terms : List Str) (fetch : Str → Option Str)
    (hex : ∀ h fts t', t' ∈ extract h fts → t' ∈ fts) : ∀ (urls : List Str)
    (s : MonitorState) (k : Nat),
    SegOK s (run_check now collect extract outcomes terms fetch urls s k).2.2.2.2
      (run_check now collect extract outcomes terms fetch urls s k).2.1 := by
  intro urls
  induction urls with
  | nil => intro s k; exact segok_nil s
  | cons url rest ih =>
    intro s k
    simp only [run_check]
    refine segok_comp
      (segok_comp (csu_segok now collect extract terms (fetch url) url s) ?_) (ih _ _)
    refine pi_segok outcomes url _ _ k ?_
    intro t' ht'
    rw [csu_infos_committed now collect extract terms (fetch url) url s hex t' ht']
    rfl

theorem rc_events_committed (now : Nat) (collect : Str → List Str)
    (extract : Str → List Str → List Str) (outcomes : Nat → Bool)
    (terms : List Str) (fetch : Str → Option Str)
    (hex : ∀ h fts t', t' ∈ extract h fts → t' ∈ fts) : ∀ (urls : List Str)
    (s : MonitorState) (k : Nat) (e : DEvent),
    e ∈ (run_check now collect extract outcomes terms fetch urls s k).2.2.2.1 →
    ((run_check now collect extract outcomes terms fetch urls s k).2.1.found_items
      e.url e.term).isSome = true := by
  intro urls
  induction urls with
  | nil => intro s k e he; exact absurd he (List.not_mem_nil e)
  | cons url rest ih =>
    intro s k e he
    simp only [run_check] at he ⊢
    rcases List.mem_append.mp he with hp | hr
    · obtain ⟨heu, hterm⟩ := pi_events_shape outcomes url _ _ k e hp
      have hc := csu_infos_committed now collect extract terms (fetch url) url s hex
        e.term hterm
      have hpf : ((processInfos outcomes url
          (check_single_url now collect extract terms (fetch url) url s).1
          (check_single_url now collect extract terms (fetch url) url s).2.1 k).1.found_items
            url e.term) = some now := by
        rw [pi_found]
        exact hc
      rw [heu]
      rw [rc_found_mono now collect extract outcomes terms fetch rest _ _ url e.term now hpf]
      rfl
    · exact ih _ _ e hr

theorem cyc_found_mono (collect : Str → List Str)
    (extract : Str → List Str → List Str) (outcomes : Nat → Bool)
    (terms urls : List Str) : ∀ (cs : List CycleInput)
    (s : MonitorState) (k : Nat) (u t : Str) (v : Nat),
    s.found_items u t = some v →
    (run_cycles collect extract outcomes terms urls cs s k).1.found_items u t = some v := by
  intro cs
  induction cs with
  | nil => intro s k u t v hv; exact hv
  | cons c cs ih =>
    intro s k u t v hv
    simp only [run_cycles]
    exact ih _ _ u t v
      (rc_found_mono c.now collect extract outcomes terms c.fetch urls s k u t v hv)

theorem cyc_flagInv (collect : Str → List Str)
    (extract : Str → List Str → List Str) (outcomes : Nat → Bool)
    (terms urls : List Str) : ∀ (cs : List CycleInput)
    (s : MonitorState) (k : Nat) (u t : Str),
    FlagInv (s.notification_sent u t)
      (evFor u t (run_cycles collect extract outcomes terms urls cs s k).2.2.1)
      ((run_cycles collect extract outcomes terms urls cs s k).1.notification_sent u t) := by
  intro cs
  induction cs with
  | nil => intro s k u t; exact flagInv_nil _
  | cons c cs ih =>
    intro s k u t
    simp only [run_cycles]
    rw [evFor_append]
    exact flagInv_comp
      (rc_flagInv c.now collect extract outcomes terms c.fetch urls s k u t) (ih _ _ u t)

theorem cyc_segok (collect : Str → List Str)
    (extract : Str → List Str → List Str) (outcomes : Nat → Bool)
    (terms urls : List Str)
    (hex : ∀ h fts t', t' ∈ extract h fts → t' ∈ fts) : ∀ (cs : List CycleInput)
    (s : MonitorState) (k : Nat),
    SegOK s (run_cycles collect extract outcomes terms urls cs s k).2.2.2
      (run_cycles collect extract outcomes terms urls cs s k).1 := by
  intro cs
  induction cs with
  | nil => intro s k; exact segok_nil s
  | cons c cs ih =>
    intro s k
    simp only [run_cycles]
    exact segok_comp (rc_segok c.now collect extract outcomes terms c.fetch hex urls s k)
      (ih _ _)

theorem cyc_events_committed (collect : Str → List Str)
    (extract : Str → List Str → List Str) (outcomes : Nat → Bool)
    (terms urls : List Str)
    (hex : ∀ h fts t', t' ∈ extract h fts → t' ∈ fts) : ∀ (cs : List CycleInput)
    (s : MonitorState) (k : Nat) (e : DEvent),
    e ∈ (run_cycles collect extract outcomes terms urls cs s k).2.2.1 →
    ((run_cycles collect extract outcomes terms urls cs s k).1.found_items
      e.url e.term).isSome = true := by
  intro cs
  induction cs with
  | nil => intro s k e he; exact absurd he (List.not_mem_nil e)
  | cons c cs ih =>
    intro s k e he
    simp only [run_cycles] at he ⊢
    rcases List.mem_append.mp he with hp | hr
    · have h1 := rc_events_committed c.now collect extract outcomes terms c.fetch hex
        urls s k e hp
      obtain ⟨v, hv⟩ := Option.isSome_iff_exists.mp h1
      rw [cyc_found_mono collect extract outcomes terms urls cs _ _ e.url e.term v hv]
      rfl
    · exact ih _ _ e hr

theorem rc_skip_none (now : Nat) (collect : Str → List Str)
    (extract : Str → List Str → List Str) (outcomes : Nat → Bool)
    (terms : List Str) (fetch : Str → Option Str) (url : Str)
    (hnone : fetch url = none) : ∀ (L1 : List Str) (L2 : List Str)
    (s : MonitorState) (k : Nat),
    run_check now collect extract outcomes terms fetch (L1 ++ url :: L2) s k =
      run_check now collect extract outcomes terms fetch (L1 ++ L2) s k := by
  intro L1
  induction L1 with
  | nil =>
    intro L2 s k
    simp only [List.nil_append]
    conv_lhs => rw [run_check]
    rw [hnone]
    rfl
  | cons a L1 ih =>
    intro L2 s k
    simp only [List.cons_append]
    conv_lhs => rw [run_check]
    conv_rhs => rw [run_check]
    rw [ih]

theorem count_true_le_one {l : List Bool}
    (h : l.dropLast.all (fun x => !x) = true) : l.count true ≤ 1 := by
  by_cases hn : l = []
  · subst hn
    simp
  · conv_lhs => rw [← List.dropLast_append_getLast hn]
    rw [List.count_append]
    have h0 : l.dropLast.count true = 0 := by
      rw [List.count_eq_zero]
      intro hmem
      have hb := List.all_eq_true.mp h _ hmem
      simp at hb
    rw [h0]
    cases hx : l.getLast hn <;> simp [hx]

theorem allPairs_mem : ∀ (us ts : List Str) (p : Str × Str),
    p ∈ allPairs us ts ↔ p.1 ∈ us ∧ p.2 ∈ ts := by
  intro us
  induction us with
  | nil =>
    intro ts p
    simp [allPairs]
  | cons u us ih =>
    intro ts p
    obtain ⟨p1, p2⟩ := p
    simp only [allPairs, List.mem_append, List.mem_map, ih, List.mem_cons,
      Prod.mk.injEq]
    constructor
    · rintro (⟨t, ht, rfl, rfl⟩ | ⟨h1, h2⟩)
      · exact ⟨Or.inl rfl, ht⟩
      · exact ⟨Or.inr h1, h2⟩
    · rintro ⟨rfl | h1, h2⟩
      · exact Or.inl ⟨p2, h2, rfl, rfl⟩
      · exact Or.inr ⟨h1, h2⟩

theorem allPairs_length : ∀ (us ts : List Str),
    (allPairs us ts).length = us.length * ts.length := by
  intro us
  induction us with
  | nil => intro ts; simp [allPairs]
  | cons u us ih =>
    intro ts
    simp only [allPairs, List.length_append, List.length_map, ih, List.length_cons]
    ring

/-! ## Claim theorems -/

/-- C1: for every (target, term) pair, across any number of check cycles, at
most one notification dispatch is attempted per successful commit of a
discovery, and a second dispatch for the same pair is attempted only after a
prior dispatch for that pair failed.  Formally, over the dispatch-event trace
of any run from the initial state: every attempt for the pair except possibly
the last one failed (so a repeat attempt follows only a failure), at most one
attempt ever succeeds, and attempts happen only for pairs whose discovery was
committed (their found timestamp is set).  The hypothesis states the source
property of `_extract_product_details`: every returned record carries one of
the newly found terms. -/
theorem c1_dispatch_per_commit (collect : Str → List Str)
    (extract : Str → List Str → List Str) (outcomes : Nat → Bool)
    (terms urls : List Str) (cs : List CycleInput) (u t : Str)
    (hex : ∀ h fts t', t' ∈ extract h fts → t' ∈ fts) :
    (evFor u t
      (run_cycles collect extract outcomes terms urls cs initState 0).2.2.1).dropLast.all
        (fun x => !x) = true ∧
    (evFor u t
      (run_cycles collect extract outcomes terms urls cs initState 0).2.2.1).count true ≤ 1 ∧
    (evFor u t (run_cycles collect extract outcomes terms urls cs initState 0).2.2.1 ≠ [] →
      ((run_cycles collect extract outcomes terms urls cs initState 0).1.found_items
        u t).isSome = true) := by
  obtain ⟨_, h2, _⟩ := cyc_flagInv collect extract outcomes terms urls cs initState 0 u t
  refine ⟨h2, count_true_le_one h2, ?_⟩
  intro hne
  have hfl : (run_cycles collect extract outcomes terms urls cs initState 0).2.2.1.filter
      (fun e => e.url == u && e.term == t) ≠ [] := by
    intro hmt
    exact hne (by simp [evFor, hmt])
  obtain ⟨e, hef⟩ := List.exists_mem_of_ne_nil _ hfl
  obtain ⟨hmem, hpred⟩ := List.mem_filter.mp hef
  rw [Bool.and_eq_true] at hpred
  obtain ⟨hbu, hbt⟩ := hpred
  have hcomm := cyc_events_committed collect extract outcomes terms urls hex cs
    initState 0 e hmem
  rw [eq_of_beq hbu, eq_of_beq hbt] at hcomm
  exact hcomm

/-- Witness for C1: a concrete one-cycle run with one discovery and a
successful dispatch. -/
theorem c1_dispatch_per_commit_witness :
    (evFor exU exT
      (run_cycles exCollectId exExtractId exOutTrue [exT] [exU]
        [⟨5, exFetchA⟩] initState 0).2.2.1).dropLast.all (fun x => !x) = true ∧
    (evFor exU exT
      (run_cycles exCollectId exExtractId exOutTrue [exT] [exU]
        [⟨5, exFetchA⟩] initState 0).2.2.1).count true ≤ 1 ∧
    (evFor exU exT (run_cycles exCollectId exExtractId exOutTrue [exT] [exU]
        [⟨5, exFetchA⟩] initState 0).2.2.1 ≠ [] →
      ((run_cycles exCollectId exExtractId exOutTrue [exT] [exU]
        [⟨5, exFetchA⟩] initState 0).1.found_items exU exT).isSome = true) :=
  c1_dispatch_per_commit exCollectId exExtractId exOutTrue [exT] [exU]
    [⟨5, exFetchA⟩] exU exT (fun _ _ _ h => h)

/-- C2: the guarded commit of a discovery is idempotent: committing a second
time returns `false` (no transition) and leaves the state of the first commit
untouched, and the stored timestamp is the one of the first successful
commit. -/
theorem c2_commit_idempotent (s : MonitorState) (u t : Str) (ts1 ts2 : Nat) :
    commitFound u t ts2 (commitFound u t ts1 s).2 = (false, (commitFound u t ts1 s).2) ∧
    (commitFound u t ts1 s).2.found_items u t =
      (if s.found_items u t = none then some ts1 else s.found_items u t) := by
  refine ⟨?_, commitFound_found_eq u t ts1 s⟩
  have hne : (commitFound u t ts1 s).2.found_items u t ≠ none := by
    rw [commitFound_found_eq]
    by_cases h : s.found_items u t = none
    · simp [h]
    · simp [h]
  generalize hX : (commitFound u t ts1 s).2 = X at hne ⊢
  simp [commitFound, hne]

/-- C3: along the whole run, every consecutive pair of observed ledger states
is a `LedgerMono` step — per (target, term) pair the found timestamp is never
cleared or overwritten, the state order NotFound < Found < Notified never
decreases except in the explicit revert-on-notify-failure step (where the
notified flag is lowered with the found timestamp kept — Found stays Found) —
and every observed state satisfies "Notified implies the found timestamp is
set". -/
theorem c3_ledger_monotone (collect : Str → List Str)
    (extract : Str → List Str → List Str) (outcomes : Nat → Bool)
    (terms urls : List Str) (cs : List CycleInput)
    (hex : ∀ h fts t', t' ∈ extract h fts → t' ∈ fts) :
    List.Chain' LedgerMono
      (initState :: (run_cycles collect extract outcomes terms urls cs initState 0).2.2.2) ∧
    ∀ x ∈ initState ::
      (run_cycles collect extract outcomes terms urls cs initState 0).2.2.2, WFS x := by
  obtain ⟨hc, _, hw⟩ := cyc_segok collect extract outcomes terms urls hex cs initState 0
  refine ⟨hc, ?_⟩
  have hwinit : WFS initState := by
    intro u t hb
    simp [initState] at hb
  intro x hx
  rcases List.mem_cons.mp hx with rfl | hx'
  · exact hwinit
  · exact hw hwinit x hx'

/-- Witness for C3: the concrete two-cycle run with a failing dispatch, which
exercises the commit, claim and revert steps. -/
theorem c3_ledger_monotone_witness :
    List.Chain' LedgerMono
      (initState :: (run_cycles exCollectId exExtractId exOutFail0 [exT] [exU]
        exCycles2 initState 0).2.2.2) ∧
    ∀ x ∈ initState :: (run_cycles exCollectId exExtractId exOutFail0 [exT] [exU]
        exCycles2 initState 0).2.2.2, WFS x :=
  c3_ledger_monotone exCollectId exExtractId exOutFail0 [exT] [exU] exCycles2
    (fun _ _ _ h => h)

/-- C4: for a non-empty fetched page, a search term is reported as newly found
by `check_for_patterns` iff its normalized form is a substring of the
normalized joined collected content and the (url, term) pair was not already
marked found when the check started; already-found terms are skipped. -/
theorem c4_matcher_iff (now : Nat) (collect : Str → List Str)
    (extract : Str → List Str → List Str) (terms : List Str) (url h : Str)
    (s : MonitorState) (hne : h.isEmpty = false) (t : Str) :
    t ∈ (check_for_patterns now collect extract terms url (some h) s).found_texts ↔
      (t ∈ terms ∧
       normalize_text t <:+: normalize_text (joinContent (collect h)) ∧
       s.found_items url t = none) := by
  rw [cfp_spec now collect extract terms url h s hne]
  show t ∈ (checkTermsLoop now url
    (normalize_text (joinContent (collect h))) terms s).1 ↔ _
  rw [ctl_mem_iff now url (normalize_text (joinContent (collect h))) terms s t,
    strContains_iff_infix]

/-- Witness for C4: concrete page consisting of the term itself. -/
theorem c4_matcher_iff_witness :
    exT ∈ (check_for_patterns 5 exCollectId exExtractId [exT] exU
        (some ['a']) initState).found_texts ↔
      (exT ∈ [exT] ∧
       normalize_text exT <:+: normalize_text (joinContent (exCollectId ['a'])) ∧
       initState.found_items exU exT = none) :=
  c4_matcher_iff 5 exCollectId exExtractId [exT] exU ['a'] initState (by decide) exT

/-- C5 counterexample: the auto-stop condition of `start_monitoring` fires at
a reachable state in which the single pair is Found but not Notified (its
dispatch failed and the notified flag was reverted), refuting the claim that
the exit happens exactly when every pair has reached Notified. -/
theorem c5_counterexample :
    should_auto_stop true [exU] [exT] exRunFail.1 = true ∧
    exRunFail.1.notification_sent exU exT = false := by
  decide

/-- C5 amended: with auto-stop enabled, the monitor-loop exit condition holds
exactly when every (target, term) pair has its found timestamp set — i.e. all
pairs are at least Found — regardless of notification status. -/
theorem c5_amended (b : Bool) (urls terms : List Str) (s : MonitorState) :
    should_auto_stop b urls terms s = true ↔
      (b = true ∧ ∀ u ∈ urls, ∀ t ∈ terms, (s.found_items u t).isSome = true) := by
  unfold should_auto_stop all_items_found get_completion_status
  rw [Bool.and_eq_true, beq_iff_eq]
  constructor
  · rintro ⟨hc, hb⟩
    refine ⟨hb, ?_⟩
    rw [← allPairs_length urls terms] at hc
    have hall := List.countP_eq_length.mp hc
    intro u hu t ht
    exact hall (u, t) ((allPairs_mem urls terms (u, t)).mpr ⟨hu, ht⟩)
  · rintro ⟨hb, hall⟩
    refine ⟨?_, hb⟩
    rw [← allPairs_length urls terms]
    refine List.countP_eq_length.mpr ?_
    intro p hp
    obtain ⟨h1, h2⟩ := (allPairs_mem urls terms p).mp hp
    exact hall p.1 h1 p.2 h2

/-- C6: the completion counter's total always equals
`|urls| * |search_texts|`, and the found count never decreases across a check
cycle. -/
theorem c6_completion_accounting (now : Nat) (collect : Str → List Str)
    (extract : Str → List Str → List Str) (outcomes : Nat → Bool)
    (terms : List Str) (fetch : Str → Option Str) (urls : List Str)
    (s : MonitorState) (k : Nat) :
    (get_completion_status urls terms s).2 = urls.length * terms.length ∧
    (get_completion_status urls terms s).1 ≤
      (get_completion_status urls terms
        (run_check now collect extract outcomes terms fetch urls s k).2.1).1 := by
  refine ⟨rfl, ?_⟩
  unfold get_completion_status
  refine List.countP_mono_left ?_
  intro p _ hps
  obtain ⟨v, hv⟩ := Option.isSome_iff_exists.mp hps
  rw [rc_found_mono now collect extract outcomes terms fetch urls s k p.1 p.2 v hv]
  rfl

/-- C7 evaluation at the failing input: one target and one term, the page
matches in cycle one, the dispatch fails (`exOutFail0 0 = false`), and every
later dispatch attempt would succeed (`exOutFail0 1 = true`).  The revert
itself behaves as claimed — the notified flag is cleared while the found
timestamp is kept — but across both cycles exactly one dispatch is ever
attempted: the next cycle skips the already-found term, regenerates no
product records, and never retries, so the pair never becomes Notified. -/
theorem c7_no_retry_in_later_cycle :
    exRunFail.2.2.1 = [⟨exU, exT, false⟩] ∧
    exRunFail.1.found_items exU exT = some 5 ∧
    exRunFail.1.notification_sent exU exT = false ∧
    exOutFail0 1 = true := by
  decide

/-- C8: a failed fetch is isolated: with `fetch url = none`, the single-url
check returns no discoveries and the completely unchanged state, and the whole
cycle behaves exactly as if the failed target were absent — the ledger entries
and the processing of every other target are unaffected. -/
theorem c8_failed_fetch_isolated (now : Nat) (collect : Str → List Str)
    (extract : Str → List Str → List Str) (outcomes : Nat → Bool)
    (terms : List Str) (fetch : Str → Option Str) (url : Str)
    (L1 L2 : List Str) (s : MonitorState) (k : Nat)
    (hnone : fetch url = none) :
    check_single_url now collect extract terms (fetch url) url s = ([], s, []) ∧
    run_check now collect extract outcomes terms fetch (L1 ++ url :: L2) s k =
      run_check now collect extract outcomes terms fetch (L1 ++ L2) s k := by
  constructor
  · rw [hnone]
    rfl
  · exact rc_skip_none now collect extract outcomes terms fetch url hnone L1 L2 s k

/-- Witness for C8: concrete two-target cycle in which every fetch fails. -/
theorem c8_failed_fetch_isolated_witness :
    check_single_url 5 exCollectId exExtractId [exT] (exFetchNone exU) exU initState =
      ([], initState, []) ∧
    run_check 5 exCollectId exExtractId exOutTrue [exT] exFetchNone
      ([exV] ++ exU :: []) initState 0 =
      run_check 5 exCollectId exExtractId exOutTrue [exT] exFetchNone
        ([exV] ++ []) initState 0 :=
  c8_failed_fetch_isolated 5 exCollectId exExtractId exOutTrue [exT] exFetchNone
    exU [exV] [] initState 0 rfl

/-- C9: the source normalizer agrees with the reference normalizer of the
specification on every input (truncate to the fixed maximum length, lowercase,
replace every character outside `[a-z0-9]` by a space, collapse consecutive
whitespace, trim), and on the specification's concrete example the two raw
spellings normalize identically.  Both normalizers are pure Lean functions,
hence deterministic. -/
theorem c9_normalizer_reference :
    (∀ s : Str, normalize_text s = normalizeRef s) ∧
    normalize_text exDJIRaw = normalize_text exDJIPlain := by
  constructor
  · intro s
    by_cases hs : s = []
    · subst hs
      simp [normalize_text, normalizeRef, stripWS, collapseWS]
    · unfold normalize_text normalizeRef
      rw [if_neg hs]
      exact congrArg stripWS (collapseWS_congr (spRel_map ((s.take TEXT_LIMIT).map Char.toLower)))
  · decide

/-- C10: invoking the pattern check with absent (`None`) or empty page content
returns `(False, None)` — no find, no product records — and the state is
returned untouched: `found_items` and `notification_sent` are unchanged for
every pair. -/
theorem c10_empty_content_untouched (now : Nat) (collect : Str → List Str)
    (extract : Str → List Str → List Str) (terms : List Str) (url : Str)
    (s : MonitorState) (html : Option Str)
    (h : html = none ∨ html = some []) :
    check_for_patterns now collect extract terms url html s = ⟨false, [], [], s, []⟩ := by
  rcases h with rfl | rfl
  · rfl
  · simp [check_for_patterns]

/-- Witness for C10: concrete absent content. -/
theorem c10_empty_content_untouched_witness :
    check_for_patterns 5 exCollectId exExtractId [exT] exU none initState =
      ⟨false, [], [], initState, []⟩ :=
  c10_empty_content_untouched 5 exCollectId exExtractId [exT] exU initState none
    (Or.inl rfl)
